import Mathlib

/-!
Verification of the Mean-Reversion backtesting repository.

The development shallowly embeds the three core components:
  * `SignalGenerator.generate_signals` (src/BBSmaReversion/src/strategy/signal_generator.py)
  * `BacktestEngine.run_backtest`      (src/src/backtest/backtest_engine.py)
  * `PerformanceAnalyzer.calculate_metrics` (src/src/backtest/performance.py)

Encoding conventions:
  * Prices, balances and indicator values are rationals (`ℚ`), standing for the
    source's floating-point numbers; every claim checked here is about the
    structure of the arithmetic, not about rounding.
  * A timestamp is a calendar day index (`date : ℕ`) together with a
    time-of-day in minutes since midnight (`timeOfDay : ℕ`).  Python `time`
    objects compare lexicographically by (hour, minute), which minutes since
    midnight reproduces: `time(14, 45)` becomes `885`, `time(14, 30)` becomes
    `870`.
  * A pandas value that may be NaN (the shifted close / lower-band columns in
    the signal generator) is an `Option ℚ`; a comparison involving NaN is
    false in pandas, which the `opt`-comparisons below reproduce.
-/

namespace MeanReversion

/-- One candle as consumed by `BacktestEngine.run_backtest`: the engine reads
`row['datetime']` (split here into day and minutes), `row['close']`,
`row['sma']` and `row['buy_signal']`.  The `sell_signal`, `open`, `high`,
`low`, `lower_band` columns are never read by the engine loop and are omitted. -/
structure Candle where
  date : ℕ
  timeOfDay : ℕ
  close : ℚ
  sma : ℚ
  buySignal : Bool
  deriving DecidableEq, Repr

/-- The constructor arguments of `BacktestEngine.__init__`
(`initial_balance`, `commission`, `stop_loss_points`). -/
structure Config where
  initialBalance : ℚ
  commission : ℚ
  stopLossPoints : ℚ
  deriving DecidableEq, Repr

/-- The fixed exit-reason strings written into a trade record. -/
inductive ExitReason where
  | takeProfit
  | stopLoss
  | marketClose
  deriving DecidableEq, Repr

/-- The open-position state of the engine: `entry_price`, `entry_time`
(day and minutes) and `entry_sma` as captured at entry. -/
structure Position where
  entryPrice : ℚ
  entryDate : ℕ
  entryTime : ℕ
  entrySma : ℚ
  deriving DecidableEq, Repr

/-- One row of `trades_list` in `run_backtest` (the `'type'` field is the
constant string `'buy'` and is omitted). -/
structure Trade where
  tradeId : ℕ
  entryDate : ℕ
  entryTime : ℕ
  entryPrice : ℚ
  exitDate : ℕ
  exitTime : ℕ
  exitPrice : ℚ
  exitReason : ExitReason
  positionSize : ℚ
  profit : ℚ
  smaAtEntry : ℚ
  deriving DecidableEq, Repr

/-- The mutable loop state of `run_backtest`: `current_balance`, the
`current_position`/`entry_*` group (collapsed into an `Option Position`,
since `current_position` only ever takes the values 0 and 1),
`daily_positions`, `current_date`, `trade_id`, `trades_list` and
`portfolio_history`. -/
structure EngineState where
  balance : ℚ
  position : Option Position
  dailyPositions : ℕ
  currentDate : Option ℕ
  tradeId : ℕ
  trades : List Trade
  portfolioHistory : List ℚ
  deriving DecidableEq, Repr

/-- Source expression `market_close_time = time(14, 45)` in minutes since midnight. -/
def marketCloseTime : ℕ := 885

/-- The hard-coded entry cutoff `time(14, 30)` in minutes since midnight
(the literal in `row_time < time(14, 30)` of the entry condition). -/
def entryCutoffTime : ℕ := 870

/-- The day-rollover step at the top of the loop body:
`if current_date is None or row_date != current_date: current_date = row_date;
daily_positions = 0`. -/
def dayReset (s : EngineState) (c : Candle) : EngineState :=
  if s.currentDate = some c.date then s
  else { s with currentDate := some c.date, dailyPositions := 0 }

/-- The exit-rule cascade evaluated while a position is open, in source
order: take-profit (`exit_price >= entry_sma`, fill at the close), stop-loss
(`unrealized_profit <= -stop_loss_points`, fill at
`entry_price - stop_loss_points`), market close (`row_time >=
market_close_time`, fill at the close).  Returns the reason and fill price of
the first matching rule, or `none`. -/
def exitDecision (cfg : Config) (p : Position) (c : Candle) : Option (ExitReason × ℚ) :=
  if p.entrySma ≤ c.close then some (ExitReason.takeProfit, c.close)
  else if c.close - p.entryPrice ≤ -cfg.stopLossPoints then
    some (ExitReason.stopLoss, p.entryPrice - cfg.stopLossPoints)
  else if marketCloseTime ≤ c.timeOfDay then some (ExitReason.marketClose, c.close)
  else none

/-- Source expression `portfolio_history.append(current_balance)` at the end of a loop
iteration. -/
def pushBalance (s : EngineState) : EngineState :=
  { s with portfolioHistory := s.portfolioHistory ++ [s.balance] }

/-- The net profit of an exit: `profit = (exit_price - entry_price) *
position_size`, `commission_cost = abs(profit) * commission`,
`net_profit = profit - commission_cost`, with `position_size = 1`. -/
def netProfitOf (cfg : Config) (entryPrice exitPrice : ℚ) : ℚ :=
  (exitPrice - entryPrice) * 1 - |(exitPrice - entryPrice) * 1| * cfg.commission

/-- The loop body after the day-rollover lines: either the entry branch
(`current_position == 0`) or the exit branch (`elif current_position != 0`),
followed by the equity-trace append. -/
def processAfterReset (cfg : Config) (s : EngineState) (c : Candle) : EngineState :=
  match s.position with
  | none =>
    if c.buySignal = true ∧ s.dailyPositions < 1 ∧ c.timeOfDay < entryCutoffTime then
      pushBalance { s with
        position := some ⟨c.close, c.date, c.timeOfDay, c.sma⟩,
        tradeId := s.tradeId + 1,
        dailyPositions := s.dailyPositions + 1 }
    else pushBalance s
  | some p =>
    match exitDecision cfg p c with
    | some (reason, exitPrice) =>
      pushBalance { s with
        balance := s.balance + netProfitOf cfg p.entryPrice exitPrice,
        position := none,
        trades := s.trades ++ [⟨s.tradeId, p.entryDate, p.entryTime, p.entryPrice,
          c.date, c.timeOfDay, exitPrice, reason, 1, netProfitOf cfg p.entryPrice exitPrice,
          p.entrySma⟩] }
    | none => pushBalance s

/-- One iteration of the `for i in range(len(df))` loop of `run_backtest`:
day-rollover reset, then the entry/exit logic and the equity-trace append. -/
def processCandle (cfg : Config) (s0 : EngineState) (c : Candle) : EngineState :=
  processAfterReset cfg (dayReset s0 c) c

/-- The engine state before the loop: `current_balance = initial_balance`,
`portfolio_history = [initial_balance]`, no position, `daily_positions = 0`,
`current_date = None`, `trade_id = 0`, empty trade list. -/
def initState (cfg : Config) : EngineState :=
  { balance := cfg.initialBalance
    position := none
    dailyPositions := 0
    currentDate := none
    tradeId := 0
    trades := []
    portfolioHistory := [cfg.initialBalance] }

/-- The dictionary returned by `run_backtest` (the annotated `backtest_df` is
not modelled: no claim reads it). -/
structure BacktestResults where
  trades : List Trade
  portfolioHistory : List ℚ
  finalBalance : ℚ
  totalReturn : ℚ
  deriving DecidableEq, Repr

/-- Source expression `BacktestEngine.run_backtest`: fold the loop body over the candle stream
and package the results.  The source performs no input validation: an empty
stream simply skips the loop. -/
def runBacktest (cfg : Config) (candles : List Candle) : BacktestResults :=
  let s := candles.foldl (processCandle cfg) (initState cfg)
  { trades := s.trades
    portfolioHistory := s.portfolioHistory
    finalBalance := s.balance
    totalReturn := (s.balance - cfg.initialBalance) / cfg.initialBalance }

/-! ### Performance analyzer (src/src/backtest/performance.py) -/

/-- Source expression `winning_trades = trades_df[trades_df['profit'] > 0]`. -/
def winningOf (trades : List Trade) : List Trade :=
  trades.filter (fun t => decide (0 < t.profit))

/-- Source expression `losing_trades = trades_df[trades_df['profit'] <= 0]`. -/
def losingOf (trades : List Trade) : List Trade :=
  trades.filter (fun t => decide (t.profit ≤ 0))

/-- Source expression `win_rate = len(winning_trades) / total_trades if total_trades > 0 else 0`. -/
def winRateOf (trades : List Trade) : ℚ :=
  if 0 < trades.length then ((winningOf trades).length : ℚ) / (trades.length : ℚ) else 0

/-- Source expression `total_profit = trades_df['profit'].sum()`. -/
def totalProfitOf (trades : List Trade) : ℚ :=
  (trades.map (·.profit)).sum

/-- Arithmetic mean of the profits of a trade list (`['profit'].mean()`). -/
def meanProfit (trades : List Trade) : ℚ :=
  (trades.map (·.profit)).sum / (trades.length : ℚ)

/-- Source expression `avg_win = winning_trades['profit'].mean() if len(winning_trades) > 0 else 0`. -/
def avgWinOf (trades : List Trade) : ℚ :=
  if 0 < (winningOf trades).length then meanProfit (winningOf trades) else 0

/-- Source expression `avg_loss = losing_trades['profit'].mean() if len(losing_trades) > 0 else 0`. -/
def avgLossOf (trades : List Trade) : ℚ :=
  if 0 < (losingOf trades).length then meanProfit (losingOf trades) else 0

/-- Source expression `gross_profit = winning_trades['profit'].sum() if len(winning_trades) > 0 else 0`. -/
def grossProfitOf (trades : List Trade) : ℚ :=
  if 0 < (winningOf trades).length then ((winningOf trades).map (·.profit)).sum else 0

/-- Source expression `gross_loss = abs(losing_trades['profit'].sum()) if len(losing_trades) > 0 else 1`:
the substituted divisor `1` is used exactly when there is no non-positive
trade, not whenever the absolute sum is zero. -/
def grossLossOf (trades : List Trade) : ℚ :=
  if 0 < (losingOf trades).length then |((losingOf trades).map (·.profit)).sum| else 1

/-- Source expression `profit_factor = gross_profit / gross_loss if gross_loss != 0 else 0`. -/
def profitFactorOf (trades : List Trade) : ℚ :=
  if grossLossOf trades ≠ 0 then grossProfitOf trades / grossLossOf trades else 0

/-- Source expression `expectancy = (win_rate * avg_win) + ((1 - win_rate) * avg_loss) if total_trades > 0 else 0`. -/
def expectancyOf (trades : List Trade) : ℚ :=
  if 0 < trades.length then
    winRateOf trades * avgWinOf trades + (1 - winRateOf trades) * avgLossOf trades
  else 0

/-- Running maximum with accumulator, the tail recursion behind
`portfolio_series.cummax()`. -/
def cummaxFrom (m : ℚ) : List ℚ → List ℚ
  | [] => []
  | x :: xs => max m x :: cummaxFrom (max m x) xs

/-- Source expression `running_max = portfolio_series.cummax()`. -/
def runningMax : List ℚ → List ℚ
  | [] => []
  | x :: xs => cummaxFrom x (x :: xs)

/-- Source expression `drawdown = (portfolio_series - running_max) / running_max`, elementwise. -/
def drawdowns (l : List ℚ) : List ℚ :=
  List.zipWith (fun p m => (p - m) / m) l (runningMax l)

/-- Source expression `max_drawdown = drawdown.min()`.  On an empty series pandas yields NaN;
that case is unreachable in the pipeline (the engine always emits a trace of
length ≥ 1) and is modelled as 0. -/
def maxDrawdownOf (l : List ℚ) : ℚ :=
  match drawdowns l with
  | [] => 0
  | x :: xs => xs.foldl min x

/-- Source expression `returns = trades_df['profit'] / initial_balance`. -/
def tradeReturns (trades : List Trade) (initialBalance : ℚ) : List ℚ :=
  trades.map (fun t => t.profit / initialBalance)

/-- Arithmetic mean of a rational list (`returns.mean()`). -/
def listMean (l : List ℚ) : ℚ := l.sum / (l.length : ℚ)

/-- Sample variance with the pandas default `ddof = 1`, so that
`returns.std()` is its square root and `returns.std() != 0` holds exactly
when this variance is nonzero. -/
def sampleVariance (l : List ℚ) : ℚ :=
  ((l.map (fun x => (x - listMean l) ^ 2)).sum) / ((l.length : ℚ) - 1)

/-- The Sharpe-ratio branch of `calculate_metrics`:
`(returns.mean() - risk_free_rate / 252) / returns.std() * np.sqrt(252)` when
more than one trade exists and the standard deviation is nonzero, else 0.
The square roots are irrational, so this single quantity lives in `ℝ`. -/
noncomputable def sharpeOf (riskFreeRate : ℚ) (trades : List Trade) (initialBalance : ℚ) : ℝ :=
  if 1 < trades.length then
    if sampleVariance (tradeReturns trades initialBalance) ≠ 0 then
      ((listMean (tradeReturns trades initialBalance) : ℝ) - (riskFreeRate : ℝ) / 252) /
        Real.sqrt (sampleVariance (tradeReturns trades initialBalance)) * Real.sqrt 252
    else 0
  else 0

/-- Source expression `exit_reasons = trades_df['exit_reason'].value_counts().to_dict()`:
a finite mapping from each observed reason to its multiplicity, modelled as
an association list over the distinct reasons (the source's dict ordering by
descending count is irrelevant to dict semantics and not modelled). -/
def exitReasonCounts (trades : List Trade) : List (ExitReason × ℕ) :=
  ((trades.map (·.exitReason)).dedup).map
    (fun r => (r, (trades.map (·.exitReason)).count r))

/-- The fixed-shape record returned by `calculate_metrics`. -/
structure Metrics where
  totalTrades : ℕ
  winningTrades : ℕ
  losingTrades : ℕ
  winRate : ℚ
  totalProfit : ℚ
  totalReturn : ℚ
  avgWin : ℚ
  avgLoss : ℚ
  profitFactor : ℚ
  expectancy : ℚ
  maxDrawdown : ℚ
  sharpe : ℝ
  exitReasons : List (ExitReason × ℕ)
  finalBalance : ℚ
  initialBalance : ℚ

/-- Source expression `PerformanceAnalyzer._empty_metrics`: every numeric field 0, empty
exit-reason mapping. -/
def emptyMetrics : Metrics :=
  { totalTrades := 0
    winningTrades := 0
    losingTrades := 0
    winRate := 0
    totalProfit := 0
    totalReturn := 0
    avgWin := 0
    avgLoss := 0
    profitFactor := 0
    expectancy := 0
    maxDrawdown := 0
    sharpe := 0
    exitReasons := []
    finalBalance := 0
    initialBalance := 0 }

/-- Source expression `PerformanceAnalyzer.calculate_metrics`: early return of the empty record
on an empty ledger, otherwise the assembled metrics.  The source reads
`portfolio_history[-1]` for `final_balance`, which presumes a non-empty trace
(the engine always supplies one); the empty case is modelled with default 0. -/
noncomputable def calculateMetrics (riskFreeRate : ℚ) (trades : List Trade)
    (portfolioHist : List ℚ) (initialBalance : ℚ) : Metrics :=
  if trades.isEmpty then emptyMetrics
  else
    { totalTrades := trades.length
      winningTrades := (winningOf trades).length
      losingTrades := (losingOf trades).length
      winRate := winRateOf trades
      totalProfit := totalProfitOf trades
      totalReturn := totalProfitOf trades / initialBalance
      avgWin := avgWinOf trades
      avgLoss := avgLossOf trades
      profitFactor := profitFactorOf trades
      expectancy := expectancyOf trades
      maxDrawdown := maxDrawdownOf portfolioHist
      sharpe := sharpeOf riskFreeRate trades initialBalance
      exitReasons := exitReasonCounts trades
      finalBalance := (portfolioHist.getLast?).getD 0
      initialBalance := initialBalance }

/-! ### Signal generator (src/BBSmaReversion/src/strategy/signal_generator.py) -/

/-- One candle as consumed by `SignalGenerator.generate_signals`: the
`close` and `lower_band` columns may hold NaN during the indicator warm-up,
modelled as `none`. -/
structure SigCandle where
  timeOfDay : ℕ
  close : Option ℚ
  lowerBand : Option ℚ
  deriving DecidableEq, Repr

/-- The constructor arguments of `SignalGenerator.__init__`
(`trading_start`, `trading_end`), in minutes since midnight. -/
structure SigConfig where
  tradingStart : ℕ
  tradingEnd : ℕ
  deriving DecidableEq, Repr

/-- Pandas `a > b` on possibly-NaN scalars: false whenever either side is
NaN. -/
def optGT : Option ℚ → Option ℚ → Bool
  | some a, some b => decide (b < a)
  | _, _ => false

/-- Pandas `a <= b` on possibly-NaN scalars: false whenever either side is
NaN. -/
def optLE : Option ℚ → Option ℚ → Bool
  | some a, some b => decide (a ≤ b)
  | _, _ => false

/-- Source expression `SignalGenerator._is_within_trading_hours`:
`(t >= trading_start) & (t <= trading_end)`. -/
def withinTradingHours (g : SigConfig) (t : ℕ) : Bool :=
  decide (g.tradingStart ≤ t) && decide (t ≤ g.tradingEnd)

/-- Source expression `prev_price_above_lower = close.shift(1) > lower_band.shift(1)`, given
the previous candle if any (the shift yields NaN at the head, hence false). -/
def prevAboveLower : Option SigCandle → Bool
  | some p => optGT p.close p.lowerBand
  | none => false

/-- Row-by-row computation of the `buy_signal` column, threading the
previous candle (`shift(1)`) through the walk. -/
def signalsFrom (g : SigConfig) : Option SigCandle → List SigCandle → List Bool
  | _, [] => []
  | prev, c :: rest =>
    (prevAboveLower prev && optLE c.close c.lowerBand && withinTradingHours g c.timeOfDay)
      :: signalsFrom g (some c) rest

/-- Source expression `SignalGenerator.generate_signals`: the `buy_signal` column,
`prev_price_above_lower & curr_price_at_lower & _is_within_trading_hours`. -/
def generateSignals (g : SigConfig) (cs : List SigCandle) : List Bool :=
  signalsFrom g none cs

/-! ### Auxiliary notions used by the invariant proofs -/

/-- The entry day recorded in a possibly-open position. -/
def posEntryDays : Option Position → List ℕ
  | some p => [p.entryDate]
  | none => []

/-- All entry days the state knows about: those of the closed trades plus
that of the open position, if any. -/
def entryDays (s : EngineState) : List ℕ :=
  s.trades.map (·.entryDate) ++ posEntryDays s.position

/-- Invariant threaded through the walk for the daily-entry cap: the daily
counter never exceeds 1, no calendar day owns more than one recorded entry,
every recorded entry day is at most the current day, and the entries on the
current day are bounded by the daily counter. -/
def DailyInv (s : EngineState) : Prop :=
  s.dailyPositions ≤ 1 ∧
  (∀ d : ℕ, (entryDays s).count d ≤ 1) ∧
  (∀ e ∈ entryDays s, ∃ cd, s.currentDate = some cd ∧ e ≤ cd) ∧
  (∀ cd, s.currentDate = some cd → (entryDays s).count cd ≤ s.dailyPositions)

/-- The invariant relating balances, ledger and equity trace: the balance is
the starting balance plus the net profits of the closed trades, and every
recorded equity value is the starting balance plus the net profits of some
initial segment of the ledger. -/
def BalanceInv (cfg : Config) (s : EngineState) : Prop :=
  s.balance = cfg.initialBalance + (s.trades.map (·.profit)).sum ∧
  ∀ b ∈ s.portfolioHistory, ∃ k, k ≤ s.trades.length ∧
    b = cfg.initialBalance + ((s.trades.take k).map (·.profit)).sum

/-! ### Concrete exhibits used in counterexamples and witnesses -/

/-- A default candle for `List.getD` indexing of signal streams. -/
def dummySig : SigCandle := ⟨0, none, none⟩

/-- A winning trade with net profit 5. -/
def tradeWin5 : Trade :=
  ⟨1, 0, 600, 100, 0, 615, 105, ExitReason.takeProfit, 1, 5, 103⟩

/-- A break-even trade with net profit 0 (classified as losing by the
analyzer, since the losing filter is `profit <= 0`). -/
def tradeFlat0 : Trade :=
  ⟨2, 1, 600, 100, 1, 885, 100, ExitReason.marketClose, 1, 0, 103⟩

/-- A two-candle stream whose timestamps strictly decrease (day 5 before
day 3), violating the chronological-input contract. -/
def nonMonotonicStream : List Candle :=
  [⟨5, 600, 100, 103, false⟩, ⟨3, 600, 101, 103, false⟩]

/-- Witness configuration: balance 100000, commission 0.001, stop 2. -/
def witCfg : Config := ⟨100000, 1/1000, 2⟩

/-- Witness open position: entered at 100 on day 1 at minute 600, with the
entry-time moving average 85 (placed at or below the stop price so that the
take-profit and stop-loss conditions can hold simultaneously). -/
def witPos : Position := ⟨100, 1, 600, 85⟩

/-- Witness engine state holding `witPos` open. -/
def witState : EngineState := ⟨100000, some witPos, 1, some 1, 1, [], [100000]⟩

/-- Witness candle with close 90: `90 ≥ 85` fires take-profit while
`90 - 100 ≤ -2` also satisfies the stop-loss condition. -/
def witCandle : Candle := ⟨1, 615, 90, 99, false⟩

/-- Witness engine state with no open position and a zero daily counter. -/
def witFlatState : EngineState := ⟨100000, none, 0, some 1, 0, [], [100000]⟩

/-- Witness entry candle: signal set, before the 14:30 cutoff. -/
def witEntryCandle : Candle := ⟨1, 600, 100, 103, true⟩

/-- Witness trading window 9:15–14:30 (minutes 555–870). -/
def witSigCfg : SigConfig := ⟨555, 870⟩

/-- Witness signal stream: close 102 above band 101, then close 100 at or
below band 101 — a crossing that must produce a signal on the second
candle. -/
def witSigStream : List SigCandle :=
  [⟨600, some 102, some 101⟩, ⟨615, some 100, some 101⟩]

/-! ### Basic facts about the day-rollover step -/

lemma dayReset_position (s : EngineState) (c : Candle) :
    (dayReset s c).position = s.position := by
  unfold dayReset; split <;> rfl

lemma dayReset_balance (s : EngineState) (c : Candle) :
    (dayReset s c).balance = s.balance := by
  unfold dayReset; split <;> rfl

lemma dayReset_trades (s : EngineState) (c : Candle) :
    (dayReset s c).trades = s.trades := by
  unfold dayReset; split <;> rfl

lemma dayReset_tradeId (s : EngineState) (c : Candle) :
    (dayReset s c).tradeId = s.tradeId := by
  unfold dayReset; split <;> rfl

lemma dayReset_portfolioHistory (s : EngineState) (c : Candle) :
    (dayReset s c).portfolioHistory = s.portfolioHistory := by
  unfold dayReset; split <;> rfl

lemma dayReset_currentDate (s : EngineState) (c : Candle) :
    (dayReset s c).currentDate = some c.date := by
  unfold dayReset; split
  · next h => rw [h]
  · rfl

lemma dayReset_dailyPositions (s : EngineState) (c : Candle) :
    (dayReset s c).dailyPositions =
      if s.currentDate = some c.date then s.dailyPositions else 0 := by
  unfold dayReset; split <;> rfl

lemma entryDays_dayReset (s : EngineState) (c : Candle) :
    entryDays (dayReset s c) = entryDays s := by
  unfold entryDays
  rw [dayReset_trades, dayReset_position]

/-! ### The equity trace grows by exactly one entry per candle -/

lemma processAfterReset_portfolioHistory (cfg : Config) (s : EngineState) (c : Candle) :
    (processAfterReset cfg s c).portfolioHistory =
      s.portfolioHistory ++ [(processAfterReset cfg s c).balance] := by
  cases h : s.position with
  | none =>
    simp only [processAfterReset, h]
    split <;> simp [pushBalance]
  | some p =>
    simp only [processAfterReset, h]
    rcases hx : exitDecision cfg p c with _ | ⟨r, ep⟩ <;> simp [hx, pushBalance]

lemma processCandle_portfolioHistory (cfg : Config) (s : EngineState) (c : Candle) :
    (processCandle cfg s c).portfolioHistory =
      s.portfolioHistory ++ [(processCandle cfg s c).balance] := by
  unfold processCandle
  rw [processAfterReset_portfolioHistory, dayReset_portfolioHistory]

lemma foldl_portfolioHistory_length (cfg : Config) :
    ∀ (cs : List Candle) (s : EngineState),
      ((cs.foldl (processCandle cfg) s).portfolioHistory).length =
        s.portfolioHistory.length + cs.length
  | [], s => by simp
  | c :: cs, s => by
    rw [List.foldl_cons, foldl_portfolioHistory_length cfg cs,
      processCandle_portfolioHistory]
    simp [Nat.add_assoc, Nat.add_comm 1 cs.length]

lemma foldl_portfolioHistory_headOpt (cfg : Config) :
    ∀ (cs : List Candle) (s : EngineState) (x : ℚ),
      s.portfolioHistory.head? = some x →
      ((cs.foldl (processCandle cfg) s).portfolioHistory).head? = some x
  | [], s, x, hx => hx
  | c :: cs, s, x, hx => by
    rw [List.foldl_cons]
    refine foldl_portfolioHistory_headOpt cfg cs _ x ?_
    rw [processCandle_portfolioHistory, List.head?_append, hx]
    rfl

/-- Claim C5: for a stream of N candles the equity trace has exactly N + 1
entries, its first entry is the starting balance, and exactly one value is
appended per candle processed. -/
theorem claim_C5_equity_trace (cfg : Config) (candles : List Candle) :
    (runBacktest cfg candles).portfolioHistory.length = candles.length + 1 ∧
    (runBacktest cfg candles).portfolioHistory.head? = some cfg.initialBalance ∧
    ∀ (s : EngineState) (c : Candle),
      (processCandle cfg s c).portfolioHistory.length = s.portfolioHistory.length + 1 := by
  refine ⟨?_, ?_, ?_⟩
  · show ((candles.foldl (processCandle cfg) (initState cfg)).portfolioHistory).length = _
    rw [foldl_portfolioHistory_length]
    simp [initState, Nat.add_comm]
  · show ((candles.foldl (processCandle cfg) (initState cfg)).portfolioHistory).head? = _
    exact foldl_portfolioHistory_headOpt cfg candles _ _ rfl
  · intro s c
    rw [processCandle_portfolioHistory]
    simp

/-- Claim C4 counterexample: on the empty stream (and on a stream with
decreasing timestamps) the engine reports no error at all — it returns a
complete, well-formed result record. -/
theorem claim_C4_counterexample :
    (runBacktest ⟨100000, 1/1000, 2⟩ []).trades = [] ∧
    (runBacktest ⟨100000, 1/1000, 2⟩ []).portfolioHistory = [100000] ∧
    (runBacktest ⟨100000, 1/1000, 2⟩ []).finalBalance = 100000 ∧
    (runBacktest ⟨100000, 1/1000, 2⟩ nonMonotonicStream).portfolioHistory.length = 3 := by
  refine ⟨by decide, by decide, by decide, by decide⟩

/-- Claim C4 amended: the engine performs no input validation.  An empty
stream produces a normal result (empty ledger, one-entry equity trace equal
to the starting balance, zero return), and a stream with non-monotonic
timestamps is processed to completion, one equity entry per candle, with no
error reported. -/
theorem claim_C4_no_validation (cfg : Config) :
    (runBacktest cfg []).trades = [] ∧
    (runBacktest cfg []).portfolioHistory = [cfg.initialBalance] ∧
    (runBacktest cfg []).finalBalance = cfg.initialBalance ∧
    (runBacktest cfg []).totalReturn = 0 ∧
    (runBacktest cfg nonMonotonicStream).portfolioHistory.length =
      nonMonotonicStream.length + 1 := by
  refine ⟨rfl, rfl, rfl, ?_, ?_⟩
  · show (cfg.initialBalance - cfg.initialBalance) / cfg.initialBalance = 0
    rw [sub_self, zero_div]
  · show ((nonMonotonicStream.foldl (processCandle cfg) (initState cfg)).portfolioHistory).length = _
    rw [foldl_portfolioHistory_length]
    simp [initState, Nat.add_comm]

/-- Claim C9: on an empty ledger `calculate_metrics` returns the fixed
`_empty_metrics` record, in which every count, rate, average and ratio field
is 0 and the exit-reason mapping is empty. -/
theorem claim_C9_empty_metrics (riskFreeRate ib : ℚ) (ph : List ℚ) :
    calculateMetrics riskFreeRate [] ph ib = emptyMetrics ∧
    emptyMetrics.totalTrades = 0 ∧ emptyMetrics.winningTrades = 0 ∧
    emptyMetrics.losingTrades = 0 ∧ emptyMetrics.winRate = 0 ∧
    emptyMetrics.totalProfit = 0 ∧ emptyMetrics.totalReturn = 0 ∧
    emptyMetrics.avgWin = 0 ∧ emptyMetrics.avgLoss = 0 ∧
    emptyMetrics.profitFactor = 0 ∧ emptyMetrics.expectancy = 0 ∧
    emptyMetrics.maxDrawdown = 0 ∧ emptyMetrics.sharpe = 0 ∧
    emptyMetrics.exitReasons = [] ∧ emptyMetrics.finalBalance = 0 ∧
    emptyMetrics.initialBalance = 0 :=
  ⟨rfl, rfl, rfl, rfl, rfl, rfl, rfl, rfl, rfl, rfl, rfl, rfl, rfl, rfl, rfl, rfl⟩

/-! ### Profit factor (claim C3) -/

lemma calculateMetrics_profitFactor (r ib : ℚ) (ph : List ℚ) (trades : List Trade)
    (hne : trades ≠ []) :
    (calculateMetrics r trades ph ib).profitFactor = profitFactorOf trades := by
  cases trades with
  | nil => exact absurd rfl hne
  | cons t ts => rfl

/-- Claim C3 counterexample: a ledger with profits `[5, 0]` has winning
trades, zero total loss (`gross_loss = 0`), yet the reported profit factor
is 0 and not `gross_profit = 5` — the divisor substitution does not fire,
because the source substitutes 1 only when the set of non-positive trades is
empty, not whenever `gross_loss` is zero. -/
theorem claim_C3_counterexample :
    losingOf [tradeWin5, tradeFlat0] ≠ [] ∧
    grossLossOf [tradeWin5, tradeFlat0] = 0 ∧
    grossProfitOf [tradeWin5, tradeFlat0] = 5 ∧
    (calculateMetrics (3/100) [tradeWin5, tradeFlat0] [100000] 100000).profitFactor = 0 ∧
    (calculateMetrics (3/100) [tradeWin5, tradeFlat0] [100000] 100000).profitFactor ≠
      grossProfitOf [tradeWin5, tradeFlat0] := by
  have h1 : grossLossOf [tradeWin5, tradeFlat0] = 0 := by
    norm_num [grossLossOf, losingOf, List.filter, tradeWin5, tradeFlat0]
  have h2 : grossProfitOf [tradeWin5, tradeFlat0] = 5 := by
    norm_num [grossProfitOf, winningOf, List.filter, tradeWin5, tradeFlat0]
  have hpf : profitFactorOf [tradeWin5, tradeFlat0] = 0 := by
    unfold profitFactorOf
    rw [h1]
    simp
  have h3 : (calculateMetrics (3/100) [tradeWin5, tradeFlat0] [100000] 100000).profitFactor = 0 := by
    rw [calculateMetrics_profitFactor _ _ _ _ (by decide)]
    exact hpf
  refine ⟨?_, h1, h2, h3, by rw [h3, h2]; norm_num⟩
  norm_num [losingOf, List.filter, tradeWin5, tradeFlat0]

/-- Claim C3 amended: for every non-empty ledger the reported profit factor
is `gross_profit / gross_loss` with `gross_loss` the absolute sum of
non-positive profits, except that the divisor is replaced by 1 exactly when
there is no non-positive trade (so such a ledger reports
`profit_factor = gross_profit`); when non-positive trades exist but their
profits sum to zero, the profit factor is reported as 0 even if the gross
profit is nonzero. -/
theorem claim_C3_profit_factor (r ib : ℚ) (ph : List ℚ) (trades : List Trade)
    (hne : trades ≠ []) :
    (calculateMetrics r trades ph ib).profitFactor = profitFactorOf trades ∧
    (losingOf trades = [] → profitFactorOf trades = grossProfitOf trades) ∧
    (losingOf trades ≠ [] → ((losingOf trades).map (·.profit)).sum = 0 →
      profitFactorOf trades = 0) ∧
    (losingOf trades ≠ [] → ((losingOf trades).map (·.profit)).sum ≠ 0 →
      profitFactorOf trades =
        grossProfitOf trades / |((losingOf trades).map (·.profit)).sum|) := by
  refine ⟨calculateMetrics_profitFactor r ib ph trades hne, ?_, ?_, ?_⟩
  · intro h0
    unfold profitFactorOf grossLossOf
    rw [h0]
    norm_num
  · intro hl hsum
    unfold profitFactorOf grossLossOf
    rw [if_pos (List.length_pos.mpr hl), hsum]
    norm_num
  · intro hl hsum
    unfold profitFactorOf grossLossOf
    rw [if_pos (List.length_pos.mpr hl)]
    rw [if_pos (abs_ne_zero.mpr hsum)]

/-- Witness for the amended claim C3: a one-trade winning ledger has no
non-positive trade, and its profit factor equals its gross profit. -/
theorem claim_C3_profit_factor_witness :
    ([tradeWin5] : List Trade) ≠ [] ∧ losingOf [tradeWin5] = [] ∧
    profitFactorOf [tradeWin5] = grossProfitOf [tradeWin5] :=
  ⟨by decide, by decide,
    (claim_C3_profit_factor (3/100) 100000 [100000] [tradeWin5] (by decide)).2.1 (by decide)⟩

/-! ### Balance and ledger bookkeeping (claims C10, C7) -/

lemma processAfterReset_cases (cfg : Config) (s : EngineState) (c : Candle) :
    ((processAfterReset cfg s c).trades = s.trades ∧
      (processAfterReset cfg s c).balance = s.balance) ∨
    (∃ tr, (processAfterReset cfg s c).trades = s.trades ++ [tr] ∧
      (processAfterReset cfg s c).balance = s.balance + tr.profit) := by
  cases h : s.position with
  | none =>
    left
    simp only [processAfterReset, h]
    split <;> simp [pushBalance]
  | some p =>
    simp only [processAfterReset, h]
    rcases hx : exitDecision cfg p c with _ | ⟨r, ep⟩
    · left; simp [pushBalance]
    · right
      refine ⟨⟨s.tradeId, p.entryDate, p.entryTime, p.entryPrice, c.date, c.timeOfDay, ep, r, 1,
        netProfitOf cfg p.entryPrice ep, p.entrySma⟩, ?_, ?_⟩ <;> simp [pushBalance]

lemma processCandle_cases (cfg : Config) (s : EngineState) (c : Candle) :
    ((processCandle cfg s c).trades = s.trades ∧
      (processCandle cfg s c).balance = s.balance) ∨
    (∃ tr, (processCandle cfg s c).trades = s.trades ++ [tr] ∧
      (processCandle cfg s c).balance = s.balance + tr.profit) := by
  have h := processAfterReset_cases cfg (dayReset s c) c
  rw [dayReset_trades, dayReset_balance] at h
  exact h

lemma balanceInv_processCandle (cfg : Config) (s : EngineState) (c : Candle)
    (h : BalanceInv cfg s) : BalanceInv cfg (processCandle cfg s c) := by
  obtain ⟨hbal, hport⟩ := h
  have hph := processCandle_portfolioHistory cfg s c
  rcases processCandle_cases cfg s c with ⟨ht, hb⟩ | ⟨tr, ht, hb⟩
  · constructor
    · rw [hb, ht, hbal]
    · intro b hbmem
      rw [hph] at hbmem
      rcases List.mem_append.mp hbmem with hbm | hbm
      · obtain ⟨k, hk, hkeq⟩ := hport b hbm
        exact ⟨k, by rw [ht]; exact hk, by rw [ht]; exact hkeq⟩
      · rw [List.mem_singleton.mp hbm, hb, ht, hbal]
        exact ⟨s.trades.length, le_refl _, by rw [List.take_length]⟩
  · constructor
    · rw [hb, ht, hbal]
      simp [add_assoc]
    · intro b hbmem
      rw [hph] at hbmem
      rcases List.mem_append.mp hbmem with hbm | hbm
      · obtain ⟨k, hk, hkeq⟩ := hport b hbm
        refine ⟨k, ?_, ?_⟩
        · rw [ht]; simp; omega
        · rw [ht, List.take_append_of_le_length hk]; exact hkeq
      · rw [List.mem_singleton.mp hbm, hb, ht, hbal]
        refine ⟨(s.trades ++ [tr]).length, le_refl _, ?_⟩
        rw [List.take_length]
        simp [add_assoc]

lemma foldl_balanceInv (cfg : Config) :
    ∀ (cs : List Candle) (s : EngineState), BalanceInv cfg s →
      BalanceInv cfg (cs.foldl (processCandle cfg) s)
  | [], s, h => h
  | c :: cs, s, h => by
    rw [List.foldl_cons]
    exact foldl_balanceInv cfg cs _ (balanceInv_processCandle cfg s c h)

/-- Claim C10: only closed trades are realized.  The final balance is the
starting balance plus the sum of the ledger's net profits, the total return
is that sum divided by the starting balance, and every equity-trace entry is
the starting balance plus the net profits of some initial segment of the
ledger — an open position contributes to none of them. -/
theorem claim_C10_closed_trades_only (cfg : Config) (candles : List Candle) :
    (runBacktest cfg candles).finalBalance =
      cfg.initialBalance + (((runBacktest cfg candles).trades.map (·.profit)).sum) ∧
    (runBacktest cfg candles).totalReturn =
      (((runBacktest cfg candles).trades.map (·.profit)).sum) / cfg.initialBalance ∧
    ∀ b ∈ (runBacktest cfg candles).portfolioHistory,
      ∃ k, k ≤ (runBacktest cfg candles).trades.length ∧
        b = cfg.initialBalance + ((((runBacktest cfg candles).trades.take k).map (·.profit)).sum) := by
  have hinit : BalanceInv cfg (initState cfg) := by
    constructor
    · simp [initState]
    · intro b hb
      simp only [initState, List.mem_singleton] at hb
      exact ⟨0, Nat.zero_le _, by simp [initState, hb]⟩
  have hinv := foldl_balanceInv cfg candles (initState cfg) hinit
  refine ⟨hinv.1, ?_, hinv.2⟩
  show ((candles.foldl (processCandle cfg) (initState cfg)).balance - cfg.initialBalance) /
      cfg.initialBalance = _
  rw [hinv.1, add_sub_cancel_left]
  rfl

/-- Witness for claim C10 at the empty stream: the single equity entry is
explained by the empty initial segment of the (empty) ledger. -/
theorem claim_C10_witness :
    ∃ k, k ≤ (runBacktest ⟨100000, 1/1000, 2⟩ []).trades.length ∧
      (100000 : ℚ) = (⟨100000, 1/1000, 2⟩ : Config).initialBalance +
        ((((runBacktest ⟨100000, 1/1000, 2⟩ []).trades.take k).map (·.profit)).sum) :=
  (claim_C10_closed_trades_only ⟨100000, 1/1000, 2⟩ []).2.2 100000 (by decide)

/-! ### The exit cascade (claims C1, C7) -/

lemma exitDecision_tp (cfg : Config) (p : Position) (c : Candle)
    (h1 : p.entrySma ≤ c.close) :
    exitDecision cfg p c = some (ExitReason.takeProfit, c.close) := by
  unfold exitDecision
  rw [if_pos h1]

lemma exitDecision_sl (cfg : Config) (p : Position) (c : Candle)
    (h1 : ¬ p.entrySma ≤ c.close) (h2 : c.close - p.entryPrice ≤ -cfg.stopLossPoints) :
    exitDecision cfg p c = some (ExitReason.stopLoss, p.entryPrice - cfg.stopLossPoints) := by
  unfold exitDecision
  rw [if_neg h1, if_pos h2]

lemma exitDecision_mc (cfg : Config) (p : Position) (c : Candle)
    (h1 : ¬ p.entrySma ≤ c.close) (h2 : ¬ c.close - p.entryPrice ≤ -cfg.stopLossPoints)
    (h3 : marketCloseTime ≤ c.timeOfDay) :
    exitDecision cfg p c = some (ExitReason.marketClose, c.close) := by
  unfold exitDecision
  rw [if_neg h1, if_neg h2, if_pos h3]

lemma exitDecision_hold (cfg : Config) (p : Position) (c : Candle)
    (h1 : ¬ p.entrySma ≤ c.close) (h2 : ¬ c.close - p.entryPrice ≤ -cfg.stopLossPoints)
    (h3 : ¬ marketCloseTime ≤ c.timeOfDay) :
    exitDecision cfg p c = none := by
  unfold exitDecision
  rw [if_neg h1, if_neg h2, if_neg h3]

lemma processCandle_exit (cfg : Config) (s : EngineState) (c : Candle) (p : Position)
    (r : ExitReason) (ep : ℚ) (hp : s.position = some p)
    (hx : exitDecision cfg p c = some (r, ep)) :
    processCandle cfg s c = pushBalance { dayReset s c with
      balance := s.balance + netProfitOf cfg p.entryPrice ep,
      position := none,
      trades := s.trades ++ [⟨s.tradeId, p.entryDate, p.entryTime, p.entryPrice,
        c.date, c.timeOfDay, ep, r, 1, netProfitOf cfg p.entryPrice ep, p.entrySma⟩] } := by
  have hd : (dayReset s c).position = some p := by rw [dayReset_position, hp]
  simp only [processCandle, processAfterReset, hd, hx, dayReset_balance, dayReset_trades,
    dayReset_tradeId]

lemma processCandle_hold (cfg : Config) (s : EngineState) (c : Candle) (p : Position)
    (hp : s.position = some p) (hx : exitDecision cfg p c = none) :
    processCandle cfg s c = pushBalance (dayReset s c) := by
  have hd : (dayReset s c).position = some p := by rw [dayReset_position, hp]
  simp only [processCandle, processAfterReset, hd, hx]

/-- Claim C1: while a position is open the engine evaluates take-profit,
stop-loss and session-close in that fixed order with first match winning:
take-profit exits at the candle close, stop-loss at the synthetic price
`entry_price - stop_loss_distance`, session close at the candle close, and
when both the take-profit and stop-loss conditions hold the recorded exit
reason is `take_profit`. -/
theorem claim_C1_exit_priority (cfg : Config) (s : EngineState) (c : Candle) (p : Position)
    (hp : s.position = some p) :
    (p.entrySma ≤ c.close →
      ∃ tr : Trade, (processCandle cfg s c).trades = s.trades ++ [tr] ∧
        tr.exitReason = ExitReason.takeProfit ∧ tr.exitPrice = c.close) ∧
    (¬ p.entrySma ≤ c.close → c.close - p.entryPrice ≤ -cfg.stopLossPoints →
      ∃ tr : Trade, (processCandle cfg s c).trades = s.trades ++ [tr] ∧
        tr.exitReason = ExitReason.stopLoss ∧
        tr.exitPrice = p.entryPrice - cfg.stopLossPoints) ∧
    (¬ p.entrySma ≤ c.close → ¬ c.close - p.entryPrice ≤ -cfg.stopLossPoints →
      marketCloseTime ≤ c.timeOfDay →
      ∃ tr : Trade, (processCandle cfg s c).trades = s.trades ++ [tr] ∧
        tr.exitReason = ExitReason.marketClose ∧ tr.exitPrice = c.close) ∧
    (¬ p.entrySma ≤ c.close → ¬ c.close - p.entryPrice ≤ -cfg.stopLossPoints →
      ¬ marketCloseTime ≤ c.timeOfDay →
      (processCandle cfg s c).trades = s.trades ∧
      (processCandle cfg s c).position = some p) ∧
    (p.entrySma ≤ c.close → c.close - p.entryPrice ≤ -cfg.stopLossPoints →
      ∃ tr : Trade, (processCandle cfg s c).trades = s.trades ++ [tr] ∧
        tr.exitReason = ExitReason.takeProfit) := by
  refine ⟨?_, ?_, ?_, ?_, ?_⟩
  · intro h1
    rw [processCandle_exit cfg s c p _ _ hp (exitDecision_tp cfg p c h1)]
    exact ⟨⟨s.tradeId, p.entryDate, p.entryTime, p.entryPrice, c.date, c.timeOfDay, c.close,
      ExitReason.takeProfit, 1, netProfitOf cfg p.entryPrice c.close, p.entrySma⟩,
      by simp [pushBalance], rfl, rfl⟩
  · intro h1 h2
    rw [processCandle_exit cfg s c p _ _ hp (exitDecision_sl cfg p c h1 h2)]
    exact ⟨⟨s.tradeId, p.entryDate, p.entryTime, p.entryPrice, c.date, c.timeOfDay,
      p.entryPrice - cfg.stopLossPoints, ExitReason.stopLoss, 1,
      netProfitOf cfg p.entryPrice (p.entryPrice - cfg.stopLossPoints), p.entrySma⟩,
      by simp [pushBalance], rfl, rfl⟩
  · intro h1 h2 h3
    rw [processCandle_exit cfg s c p _ _ hp (exitDecision_mc cfg p c h1 h2 h3)]
    exact ⟨⟨s.tradeId, p.entryDate, p.entryTime, p.entryPrice, c.date, c.timeOfDay, c.close,
      ExitReason.marketClose, 1, netProfitOf cfg p.entryPrice c.close, p.entrySma⟩,
      by simp [pushBalance], rfl, rfl⟩
  · intro h1 h2 h3
    rw [processCandle_hold cfg s c p hp (exitDecision_hold cfg p c h1 h2 h3)]
    constructor
    · simp [pushBalance, dayReset_trades]
    · simp [pushBalance, dayReset_position, hp]
  · intro h1 _
    rw [processCandle_exit cfg s c p _ _ hp (exitDecision_tp cfg p c h1)]
    exact ⟨⟨s.tradeId, p.entryDate, p.entryTime, p.entryPrice, c.date, c.timeOfDay, c.close,
      ExitReason.takeProfit, 1, netProfitOf cfg p.entryPrice c.close, p.entrySma⟩,
      by simp [pushBalance], rfl⟩

/-- Witness for claim C1: on `witCandle` both the take-profit condition
(`90 ≥ 85`) and the stop-loss condition (`90 - 100 ≤ -2`) hold, and the
recorded exit reason is `take_profit`. -/
theorem claim_C1_exit_priority_witness :
    witState.position = some witPos ∧
    witPos.entrySma ≤ witCandle.close ∧
    witCandle.close - witPos.entryPrice ≤ -witCfg.stopLossPoints ∧
    ∃ tr : Trade, (processCandle witCfg witState witCandle).trades = witState.trades ++ [tr] ∧
      tr.exitReason = ExitReason.takeProfit := by
  refine ⟨rfl, by norm_num [witPos, witCandle], by norm_num [witPos, witCandle, witCfg], ?_⟩
  exact (claim_C1_exit_priority witCfg witState witCandle witPos rfl).2.2.2.2
    (by norm_num [witPos, witCandle]) (by norm_num [witPos, witCandle, witCfg])

/-- Claim C7: on every exit the engine books
`net = gross - |gross| * commission_rate` with
`gross = (exit_price - entry_price) * 1`, adds the net profit to the
balance, appends exactly one trade record, clears the position, and for a
losing trade the net result is `gross * (1 + rate)`, strictly worse than the
gross loss. -/
theorem claim_C7_exit_accounting (cfg : Config) (s : EngineState) (c : Candle) (p : Position)
    (r : ExitReason) (ep : ℚ) (hp : s.position = some p)
    (hx : exitDecision cfg p c = some (r, ep)) :
    (processCandle cfg s c).balance = s.balance + netProfitOf cfg p.entryPrice ep ∧
    (processCandle cfg s c).trades = s.trades ++
      [⟨s.tradeId, p.entryDate, p.entryTime, p.entryPrice, c.date, c.timeOfDay, ep, r, 1,
        netProfitOf cfg p.entryPrice ep, p.entrySma⟩] ∧
    (processCandle cfg s c).position = none ∧
    netProfitOf cfg p.entryPrice ep =
      (ep - p.entryPrice) * 1 - |(ep - p.entryPrice) * 1| * cfg.commission ∧
    ((ep - p.entryPrice) * 1 < 0 →
      netProfitOf cfg p.entryPrice ep = ((ep - p.entryPrice) * 1) * (1 + cfg.commission)) := by
  rw [processCandle_exit cfg s c p r ep hp hx]
  refine ⟨by simp [pushBalance], by simp [pushBalance], by simp [pushBalance], rfl, ?_⟩
  intro hneg
  unfold netProfitOf
  rw [abs_of_neg hneg]
  ring

/-- Witness for claim C7: the take-profit exit of `witPos` at close 90 books
a gross loss of −10, commission 0.01 on its absolute value, net −10.01, and
the losing-trade identity `net = gross * (1 + rate)` holds. -/
theorem claim_C7_exit_accounting_witness :
    witState.position = some witPos ∧
    exitDecision witCfg witPos witCandle = some (ExitReason.takeProfit, 90) ∧
    (processCandle witCfg witState witCandle).balance =
      witState.balance + netProfitOf witCfg witPos.entryPrice 90 ∧
    (processCandle witCfg witState witCandle).position = none ∧
    ((90 : ℚ) - witPos.entryPrice) * 1 < 0 ∧
    netProfitOf witCfg witPos.entryPrice 90 =
      (((90 : ℚ) - witPos.entryPrice) * 1) * (1 + witCfg.commission) := by
  have hx : exitDecision witCfg witPos witCandle = some (ExitReason.takeProfit, 90) :=
    exitDecision_tp witCfg witPos witCandle (by norm_num [witPos, witCandle])
  have h := claim_C7_exit_accounting witCfg witState witCandle witPos
    ExitReason.takeProfit 90 rfl hx
  exact ⟨rfl, hx, h.1, h.2.2.1, by norm_num [witPos],
    h.2.2.2.2 (by norm_num [witPos])⟩

/-! ### The entry rule (claim C2) -/

/-- Claim C2: with no position open, the engine opens one exactly when the
entry signal is set, the (possibly just reset) daily counter is below 1 and
the time-of-day is strictly before the 14:30 entry cutoff; on opening it
records entry price = close, entry time = the candle's timestamp and entry
target = the candle's moving average, increments the counter and performs no
exit bookkeeping on that candle; the counter consulted is reset to 0 exactly
when the calendar day changed; and with a position already open the step
never records a fresh entry (the position either persists or is cleared). -/
theorem claim_C2_entry_rule (cfg : Config) (s : EngineState) (c : Candle)
    (hp : s.position = none) :
    ((c.buySignal = true ∧ (dayReset s c).dailyPositions < 1 ∧ c.timeOfDay < entryCutoffTime) ↔
      (processCandle cfg s c).position = some ⟨c.close, c.date, c.timeOfDay, c.sma⟩) ∧
    (processCandle cfg s c).trades = s.trades ∧
    (processCandle cfg s c).balance = s.balance ∧
    ((c.buySignal = true ∧ (dayReset s c).dailyPositions < 1 ∧ c.timeOfDay < entryCutoffTime) →
      (processCandle cfg s c).dailyPositions = (dayReset s c).dailyPositions + 1 ∧
      (processCandle cfg s c).tradeId = s.tradeId + 1) ∧
    (¬ (c.buySignal = true ∧ (dayReset s c).dailyPositions < 1 ∧ c.timeOfDay < entryCutoffTime) →
      (processCandle cfg s c).position = none ∧
      (processCandle cfg s c).dailyPositions = (dayReset s c).dailyPositions) ∧
    (dayReset s c).dailyPositions = (if s.currentDate = some c.date then s.dailyPositions else 0) ∧
    (∀ (s' : EngineState) (p : Position), s'.position = some p →
      (processCandle cfg s' c).position = none ∨ (processCandle cfg s' c).position = some p) := by
  have hd : (dayReset s c).position = none := by rw [dayReset_position, hp]
  have honlyif : ∀ (s' : EngineState) (p : Position), s'.position = some p →
      (processCandle cfg s' c).position = none ∨ (processCandle cfg s' c).position = some p := by
    intro s' p hps
    rcases hx : exitDecision cfg p c with _ | ⟨r, ep⟩
    · right
      rw [processCandle_hold cfg s' c p hps hx]
      simp [pushBalance, dayReset_position, hps]
    · left
      rw [processCandle_exit cfg s' c p r ep hps hx]
      simp [pushBalance]
  by_cases hcond : c.buySignal = true ∧ (dayReset s c).dailyPositions < 1 ∧
      c.timeOfDay < entryCutoffTime
  · have hred : processCandle cfg s c = pushBalance { dayReset s c with
        position := some ⟨c.close, c.date, c.timeOfDay, c.sma⟩,
        tradeId := (dayReset s c).tradeId + 1,
        dailyPositions := (dayReset s c).dailyPositions + 1 } := by
      simp only [processCandle, processAfterReset, hd, if_pos hcond]
    rw [hred]
    refine ⟨?_, ?_, ?_, ?_, ?_, dayReset_dailyPositions s c, honlyif⟩
    · exact ⟨fun _ => rfl, fun _ => hcond⟩
    · simp [pushBalance, dayReset_trades]
    · simp [pushBalance, dayReset_balance]
    · exact fun _ => ⟨rfl, by simp [pushBalance, dayReset_tradeId]⟩
    · exact fun hn => absurd hcond hn
  · have hred : processCandle cfg s c = pushBalance (dayReset s c) := by
      simp only [processCandle, processAfterReset, hd, if_neg hcond]
    rw [hred]
    refine ⟨?_, ?_, ?_, ?_, ?_, dayReset_dailyPositions s c, honlyif⟩
    · refine ⟨fun hc => absurd hc hcond, fun habs => ?_⟩
      rw [show (pushBalance (dayReset s c)).position = none by
        simp [pushBalance, dayReset_position, hp]] at habs
      exact absurd habs (by simp)
    · simp [pushBalance, dayReset_trades]
    · simp [pushBalance, dayReset_balance]
    · exact fun hc => absurd hc hcond
    · exact fun _ => ⟨by simp [pushBalance, dayReset_position, hp], rfl⟩

/-- Witness for claim C2: on `witEntryCandle` (signal set, counter 0, minute
600 < 870) the engine opens a position at close 100 with target 103 and
leaves the ledger untouched. -/
theorem claim_C2_entry_rule_witness :
    witFlatState.position = none ∧
    (processCandle witCfg witFlatState witEntryCandle).position =
      some ⟨witEntryCandle.close, witEntryCandle.date, witEntryCandle.timeOfDay,
        witEntryCandle.sma⟩ ∧
    (processCandle witCfg witFlatState witEntryCandle).trades = witFlatState.trades := by
  have h := claim_C2_entry_rule witCfg witFlatState witEntryCandle rfl
  refine ⟨rfl, h.1.mp ⟨rfl, ?_, ?_⟩, h.2.1⟩
  · rw [dayReset_dailyPositions]
    norm_num [witFlatState, witEntryCandle]
  · norm_num [witEntryCandle, entryCutoffTime]

/-! ### The signal rule (claim C6) -/

lemma signalsFrom_length (g : SigConfig) :
    ∀ (prev : Option SigCandle) (cs : List SigCandle),
      (signalsFrom g prev cs).length = cs.length
  | _, [] => rfl
  | prev, c :: rest => by
    simp only [signalsFrom, List.length_cons, signalsFrom_length g (some c) rest]

lemma signalsFrom_getD (g : SigConfig) :
    ∀ (cs : List SigCandle) (prev : Option SigCandle) (t : ℕ), t < cs.length →
      (signalsFrom g prev cs).getD t false =
        (prevAboveLower (if t = 0 then prev else some (cs.getD (t - 1) dummySig)) &&
         optLE (cs.getD t dummySig).close (cs.getD t dummySig).lowerBand &&
         withinTradingHours g (cs.getD t dummySig).timeOfDay)
  | [], _, t, ht => absurd ht (by simp)
  | c :: rest, prev, 0, _ => by simp [signalsFrom]
  | c :: rest, prev, t + 1, ht => by
    have ih := signalsFrom_getD g rest (some c) t (by simpa using ht)
    simp only [signalsFrom, List.getD_cons_succ, ih]
    have harg : (if t = 0 then some c else some (rest.getD (t - 1) dummySig)) =
        some ((c :: rest).getD (t + 1 - 1) dummySig) := by
      cases t with
      | zero => simp
      | succ u => simp
    rw [harg]
    simp

/-- Claim C6: the signal evaluator emits one boolean per candle; index 0 is
always false; for `t ≥ 1` with both candles' values defined the signal is
true exactly when the previous close was strictly above the previous band,
the current close is at or below the current band, and the time-of-day lies
within the trading window with both endpoints inclusive; an undefined
previous close or band forces a false signal. -/
theorem claim_C6_signal_rule (g : SigConfig) (cs : List SigCandle) :
    (generateSignals g cs).length = cs.length ∧
    (generateSignals g cs).getD 0 false = false ∧
    (∀ t, t + 1 < cs.length →
      ∀ pc plb cc clb : ℚ,
        (cs.getD t dummySig).close = some pc →
        (cs.getD t dummySig).lowerBand = some plb →
        (cs.getD (t + 1) dummySig).close = some cc →
        (cs.getD (t + 1) dummySig).lowerBand = some clb →
        ((generateSignals g cs).getD (t + 1) false = true ↔
          (plb < pc ∧ cc ≤ clb ∧
            g.tradingStart ≤ (cs.getD (t + 1) dummySig).timeOfDay ∧
            (cs.getD (t + 1) dummySig).timeOfDay ≤ g.tradingEnd))) ∧
    (∀ t, t + 1 < cs.length →
      ((cs.getD t dummySig).lowerBand = none ∨ (cs.getD t dummySig).close = none) →
      (generateSignals g cs).getD (t + 1) false = false) := by
  refine ⟨signalsFrom_length g none cs, ?_, ?_, ?_⟩
  · cases cs with
    | nil => rfl
    | cons c rest => simp [generateSignals, signalsFrom, prevAboveLower]
  · intro t ht pc plb cc clb hpc hplb hcc hclb
    unfold generateSignals
    rw [signalsFrom_getD g cs none (t + 1) ht]
    simp only [Nat.add_sub_cancel, if_neg (Nat.succ_ne_zero t), prevAboveLower, hpc, hplb,
      hcc, hclb, optGT, optLE, withinTradingHours, Bool.and_eq_true, decide_eq_true_eq]
    tauto
  · intro t ht hundef
    unfold generateSignals
    rw [signalsFrom_getD g cs none (t + 1) ht]
    rcases hundef with h | h <;>
      · simp only [Nat.add_sub_cancel, if_neg (Nat.succ_ne_zero t), prevAboveLower, h, optGT]
        cases hcl : (cs.getD t dummySig).close <;> cases hlb : (cs.getD t dummySig).lowerBand <;>
          simp_all [optGT]

/-- Witness for claim C6: on `witSigStream` the crossing candle at index 1
carries a true signal, via the characterization at `t = 0`. -/
theorem claim_C6_signal_rule_witness :
    (0 : ℕ) + 1 < witSigStream.length ∧
    (generateSignals witSigCfg witSigStream).getD 1 false = true :=
  ⟨by decide,
    ((claim_C6_signal_rule witSigCfg witSigStream).2.2.1 0 (by decide) 102 101 100 101
        rfl rfl rfl rfl).mpr (by norm_num [witSigStream, witSigCfg, dummySig])⟩

/-! ### The daily entry cap (claim C8) -/

lemma entryDays_nopos (s : EngineState) (hp : s.position = none) :
    entryDays s = s.trades.map (·.entryDate) := by
  simp [entryDays, posEntryDays, hp]

lemma dailyInv_dayReset (s : EngineState) (c : Candle) (h : DailyInv s)
    (hlb : ∀ cd, s.currentDate = some cd → cd ≤ c.date) :
    DailyInv (dayReset s c) := by
  obtain ⟨h1, h2, h3, h4⟩ := h
  unfold dayReset
  split
  · exact ⟨h1, h2, h3, h4⟩
  · next hne =>
    refine ⟨Nat.zero_le 1, fun d => h2 d, ?_, ?_⟩
    · intro e he
      obtain ⟨cd, hcd, hle⟩ := h3 e he
      exact ⟨c.date, rfl, le_trans hle (hlb cd hcd)⟩
    · intro cd hcd
      have hcdc : cd = c.date := by
        simpa using hcd.symm
      subst hcdc
      have hnotmem : c.date ∉ entryDays s := by
        intro hmem
        obtain ⟨cd0, hcd0, hle0⟩ := h3 c.date hmem
        have heq0 : cd0 = c.date := le_antisymm (hlb cd0 hcd0) hle0
        exact hne (by rw [← heq0]; exact hcd0)
      show (entryDays s).count c.date ≤ 0
      exact le_of_eq (List.count_eq_zero.mpr hnotmem)

lemma dailyInv_processAfterReset (cfg : Config) (s : EngineState) (c : Candle)
    (h : DailyInv s) (hcur : s.currentDate = some c.date) :
    DailyInv (processAfterReset cfg s c) ∧
      (processAfterReset cfg s c).currentDate = some c.date := by
  obtain ⟨h1, h2, h3, h4⟩ := h
  cases hp : s.position with
  | none =>
    simp only [processAfterReset, hp]
    split
    · next hcond =>
      have hdp0 : s.dailyPositions = 0 := Nat.lt_one_iff.mp hcond.2.1
      have hED : entryDays (pushBalance { s with
          position := some ⟨c.close, c.date, c.timeOfDay, c.sma⟩,
          tradeId := s.tradeId + 1,
          dailyPositions := s.dailyPositions + 1 }) =
          s.trades.map (·.entryDate) ++ [c.date] := by
        simp [entryDays, posEntryDays, pushBalance]
      have hcnt0 : (s.trades.map (·.entryDate)).count c.date = 0 := by
        have := h4 c.date hcur
        rw [entryDays_nopos s hp] at this
        omega
      refine ⟨⟨?_, ?_, ?_, ?_⟩, ?_⟩
      · show s.dailyPositions + 1 ≤ 1
        omega
      · intro d
        rw [hED, List.count_append, List.count_cons, List.count_nil]
        by_cases hd : c.date = d
        · subst hd
          simp [hcnt0]
        · have hold : (s.trades.map (·.entryDate)).count d ≤ 1 := by
            have := h2 d
            rwa [entryDays_nopos s hp] at this
          simp only [List.count_nil, beq_iff_eq, if_neg hd]
          omega
      · intro e he
        rw [hED] at he
        rcases List.mem_append.mp he with hm | hm
        · obtain ⟨cd, hcd, hle⟩ := h3 e (by rw [entryDays_nopos s hp]; exact hm)
          have : cd = c.date := by
            rw [hcd] at hcur
            simpa using hcur
          exact ⟨c.date, hcur, this ▸ hle⟩
        · have : e = c.date := by simpa using hm
          exact ⟨c.date, hcur, le_of_eq this⟩
      · intro cd hcd
        have hcdc : cd = c.date := by
          have : s.currentDate = some cd := hcd
          rw [hcur] at this
          simpa using this.symm
        subst hcdc
        show (entryDays _).count _ ≤ s.dailyPositions + 1
        rw [hED, List.count_append, List.count_cons, List.count_nil]
        simp [hcnt0]
      · exact hcur
    · next hcond =>
      refine ⟨⟨h1, ?_, ?_, ?_⟩, hcur⟩
      · intro d
        show (entryDays s).count d ≤ 1
        exact h2 d
      · intro e he
        exact h3 e he
      · intro cd hcd
        exact h4 cd hcd
  | some p =>
    simp only [processAfterReset, hp]
    rcases hx : exitDecision cfg p c with _ | ⟨r, ep⟩
    · exact ⟨⟨h1, h2, h3, h4⟩, hcur⟩
    · have hED : entryDays (pushBalance { s with
          balance := s.balance + netProfitOf cfg p.entryPrice ep,
          position := none,
          trades := s.trades ++ [⟨s.tradeId, p.entryDate, p.entryTime, p.entryPrice,
            c.date, c.timeOfDay, ep, r, 1, netProfitOf cfg p.entryPrice ep, p.entrySma⟩] }) =
          entryDays s := by
        simp [entryDays, posEntryDays, pushBalance, hp]
      refine ⟨⟨h1, ?_, ?_, ?_⟩, hcur⟩
      · intro d
        rw [hED]
        exact h2 d
      · intro e he
        rw [hED] at he
        exact h3 e he
      · intro cd hcd
        rw [hED]
        exact h4 cd hcd

lemma dailyInv_foldl (cfg : Config) :
    ∀ (cs : List Candle) (s : EngineState), DailyInv s →
      (∀ cd, s.currentDate = some cd → ∀ c ∈ cs, cd ≤ c.date) →
      List.Pairwise (· ≤ ·) (cs.map (·.date)) →
      DailyInv (cs.foldl (processCandle cfg) s)
  | [], s, h, _, _ => h
  | c :: cs, s, h, hlb, hpw => by
    rw [List.foldl_cons]
    have hreset : DailyInv (dayReset s c) :=
      dailyInv_dayReset s c h (fun cd hcd => hlb cd hcd c (List.mem_cons_self c cs))
    have hstep := dailyInv_processAfterReset cfg (dayReset s c) c hreset
      (dayReset_currentDate s c)
    rw [List.map_cons, List.pairwise_cons] at hpw
    refine dailyInv_foldl cfg cs _ hstep.1 ?_ hpw.2
    intro cd hcd c' hc'
    have hc2 : (processCandle cfg s c).currentDate = some c.date := hstep.2
    have : cd = c.date := by
      rw [hc2] at hcd
      simpa using hcd.symm
    subst this
    exact hpw.1 c'.date (List.mem_map_of_mem (·.date) hc')

/-- Claim C8: on a chronologically ordered stream (non-decreasing calendar
days, as guaranteed by strictly increasing timestamps) at most one trade's
entry timestamp falls on any calendar day; the daily counter is reset to
zero exactly when the candle's day differs from the previously seen day,
irrespective of the open-position state, which the rollover never touches. -/
theorem claim_C8_daily_cap (cfg : Config) (candles : List Candle)
    (hchron : List.Pairwise (· ≤ ·) (candles.map (·.date))) :
    (∀ d : ℕ, (((runBacktest cfg candles).trades.map (·.entryDate)).count d) ≤ 1) ∧
    (∀ (s : EngineState) (c : Candle),
      (dayReset s c).dailyPositions =
        (if s.currentDate = some c.date then s.dailyPositions else 0) ∧
      (dayReset s c).position = s.position ∧
      (dayReset s c).trades = s.trades ∧
      (dayReset s c).currentDate = some c.date) := by
  constructor
  · intro d
    have hinit : DailyInv (initState cfg) := by
      refine ⟨Nat.zero_le 1, ?_, ?_, ?_⟩
      · intro d'
        simp [entryDays, posEntryDays, initState]
      · intro e he
        simp [entryDays, posEntryDays, initState] at he
      · intro cd hcd
        simp [initState] at hcd
    have hfin := dailyInv_foldl cfg candles (initState cfg) hinit
      (by intro cd hcd; simp [initState] at hcd) hchron
    have hle : (((candles.foldl (processCandle cfg) (initState cfg)).trades.map
        (·.entryDate)).count d) ≤
        ((entryDays (candles.foldl (processCandle cfg) (initState cfg))).count d) := by
      rw [entryDays, List.count_append]
      omega
    exact le_trans hle (hfin.2.1 d)
  · intro s c
    exact ⟨dayReset_dailyPositions s c, dayReset_position s c, dayReset_trades s c,
      dayReset_currentDate s c⟩

/-- Witness for claim C8: a concrete chronological two-candle stream (one
entry fires) satisfies the cap on day 1. -/
theorem claim_C8_daily_cap_witness :
    List.Pairwise (· ≤ ·) (([witEntryCandle, witCandle] : List Candle).map (·.date)) ∧
    (((runBacktest witCfg [witEntryCandle, witCandle]).trades.map (·.entryDate)).count 1) ≤ 1 :=
  ⟨by decide,
    (claim_C8_daily_cap witCfg [witEntryCandle, witCandle] (by decide)).1 1⟩

end MeanReversion
